import Mathlib

/-!
# Verification of the veo-chat signaling server (backend/server.js)

Shallow embedding of the "Defensive id-based room server" from
`backend/server.js`: the connection registry (`clientsById`, `clientsByWs`),
the room directory (`rooms`), the message router (`ws.on('message')`,
`handleSignaling`), the room operations (`handleJoinRoomByWs`,
`leaveRoomById`, `cleanupClient`) and the ping/pong liveness monitor.

JavaScript `Map` objects are modelled as insertion-ordered association
lists, `Set` objects as duplicate-free insertion-ordered lists.  Message
emission (`safeSend`) is modelled by returning the ordered list of
`(socket, message)` pairs an operation sends; `safeSend`'s
`readyState === OPEN` guard is modelled by the `openConns` component of
the state.  JavaScript string falsiness (`null`, `undefined` and `""` are
falsy) is modelled explicitly by `strOr` / `optOr` / `isFalsy` on
`Option String`.
-/

namespace VeoChat

/-! ## Association-list model of JS `Map`, list model of JS `Set` -/

/-- Lookup in an insertion-ordered association list (JS `Map.get`). -/
def lookupA {α β : Type} [DecidableEq α] : List (α × β) → α → Option β
  | [], _ => none
  | (k, v) :: rest, a => if k = a then some v else lookupA rest a

/-- JS `Map.set`: overwrite in place when the key is present, else append. -/
def setA {α β : Type} [DecidableEq α] : List (α × β) → α → β → List (α × β)
  | [], a, b => [(a, b)]
  | (k, v) :: rest, a, b => if k = a then (k, b) :: rest else (k, v) :: setA rest a b

/-- JS `Map.delete`: remove the entry with the given key. -/
def delA {α β : Type} [DecidableEq α] : List (α × β) → α → List (α × β)
  | [], _ => []
  | (k, v) :: rest, a => if k = a then delA rest a else (k, v) :: delA rest a

/-- JS `Set.add`: append the element when it is not yet present. -/
def addMem {α : Type} [DecidableEq α] (l : List α) (x : α) : List α :=
  if x ∈ l then l else l ++ [x]

/-- JS `Set.delete`: remove the first (only) occurrence of the element. -/
def eraseMem {α : Type} [DecidableEq α] : List α → α → List α
  | [], _ => []
  | y :: rest, x => if y = x then rest else y :: eraseMem rest x

/-- Iteration `for (x of set) if (x !== a) ...`: drop every occurrence of `a`. -/
def filterNe : List String → String → List String
  | [], _ => []
  | y :: rest, x => if y = x then filterNe rest x else y :: filterNe rest x

/-! ## JS string falsiness -/

/-- JS `o || d` for a possibly-missing string field (`""` is falsy). -/
def strOr (o : Option String) (d : String) : String :=
  match o with
  | none => d
  | some s => if s = "" then d else s

/-- JS `o || d` where both operands are possibly-missing strings. -/
def optOr (o d : Option String) : Option String :=
  match o with
  | none => d
  | some s => if s = "" then d else some s

/-- JS `!o` for a possibly-missing string field. -/
def isFalsy (o : Option String) : Bool :=
  match o with
  | none => true
  | some s => s = ""

/-! ## Data model -/

/-- The record stored in `clientsByWs`: `{ id, room }`. -/
structure ClientInfo where
  id : String
  room : Option String
deriving Repr, DecidableEq

/-- An inbound protocol message.  `efrom` models the `from` field
(`from` is a reserved word in Lean); absent fields are `none` and the
payload (sdp / candidate data) is opaque. -/
structure Envelope where
  type : String
  efrom : Option String
  target : Option String
  room : Option String
  payload : String
deriving Repr, DecidableEq

/-- Server-to-client messages. -/
inductive SMsg where
  /-- `{type:'client-id', clientId}` -/
  | clientIdMsg (id : String)
  /-- `{type:'joined', peers, room}` -/
  | joined (peers : List String) (room : String)
  /-- `{type:'peer-joined', peerId, room}` -/
  | peerJoined (peerId : String) (room : String)
  /-- `{type:'peer-left', peerId, room}` -/
  | peerLeft (peerId : String) (room : String)
  /-- `{...msg, from}`: the relayed signaling envelope -/
  | relayed (env : Envelope)
  /-- `{type:'pong', ts}` heartbeat reply -/
  | pong
deriving Repr, DecidableEq

/-- The server's mutable state: `rooms : roomId -> Set<clientId>`,
`clientsById : clientId -> ws`, `clientsByWs : ws -> {id, room}`.
Sockets are identified by `Nat`; `openConns` lists the sockets whose
`readyState` is `OPEN`. -/
structure ServerState where
  rooms : List (String × List String)
  clientsById : List (String × Nat)
  clientsByWs : List (Nat × ClientInfo)
  openConns : List Nat
deriving Repr, DecidableEq

/-- `safeSend(ws, msg)`: emits the frame only when the socket is `OPEN`
(`openConns` is the set of `OPEN` sockets). -/
def sendTo (openConns : List Nat) (ws : Nat) (m : SMsg) : List (Nat × SMsg) :=
  if ws ∈ openConns then [(ws, m)] else []

/-- `for (peerId of ids) { const w = clientsById.get(peerId); if (w) safeSend(w, m); }` -/
def notifyAll (byId : List (String × Nat)) (openConns : List Nat) :
    List String → SMsg → List (Nat × SMsg)
  | [], _ => []
  | peerId :: rest, m =>
    (match lookupA byId peerId with
     | some pws => sendTo openConns pws m
     | none => []) ++ notifyAll byId openConns rest m

/-! ## Room logic (backend/server.js lines 108-181) -/

/-- JS `String.prototype.trim`: drop leading and trailing whitespace.
(Defined structurally over the character list; Lean's built-in
`String.trim` is defined by well-founded recursion and does not reduce.) -/
def jsTrim (s : String) : String :=
  ⟨((s.data.dropWhile Char.isWhitespace).reverse.dropWhile Char.isWhitespace).reverse⟩

/-- JS `String.prototype.toUpperCase` (ASCII range). -/
def jsToUpper (s : String) : String :=
  ⟨s.data.map Char.toUpper⟩

/-- `normalizeRoom(room)`: `null` for a falsy argument, otherwise
`String(room).trim().toUpperCase()`. -/
def normalizeRoom (room : Option String) : Option String :=
  match room with
  | none => none
  | some s => if s = "" then none else some (jsToUpper (jsTrim s))

/-- Members of a room, `rooms.get(room) || []`. -/
def membersOf (s : ServerState) (room : String) : List String :=
  (lookupA s.rooms room).getD []

/-- The identities of all currently-registered connections. -/
def registeredIds (s : ServerState) : List String :=
  s.clientsByWs.map (fun p => p.2.id)

/-- `leaveRoomById(clientId, rawRoom)` (lines 154-181): normalize the room,
drop the request when the room is unknown or the client is not a member,
otherwise delete the member, null out the client's `room` field, send
`peer-left` to each remaining member, and delete the room when it became
empty. -/
def leaveRoomById (s : ServerState) (clientId : String) (rawRoom : Option String) :
    ServerState × List (Nat × SMsg) :=
  match normalizeRoom rawRoom with
  | none => (s, [])
  | some room =>
    if room = "" then (s, [])
    else
      match lookupA s.rooms room with
      | none => (s, [])
      | some set0 =>
        if clientId ∈ set0 then
          let set1 := eraseMem set0 clientId
          let s1 : ServerState := { s with rooms := setA s.rooms room set1 }
          let s2 : ServerState :=
            match lookupA s1.clientsById clientId with
            | some cws =>
              match lookupA s1.clientsByWs cws with
              | some info =>
                { s1 with clientsByWs := setA s1.clientsByWs cws { info with room := none } }
              | none => s1
            | none => s1
          let outs := notifyAll s2.clientsById s2.openConns set1 (SMsg.peerLeft clientId room)
          let s3 : ServerState :=
            if set1 = [] then { s2 with rooms := delA s2.rooms room } else s2
          (s3, outs)
        else (s, [])

/-- `handleJoinRoomByWs(ws, rawRoom)` (lines 113-152): normalize the room;
re-join of the current room only re-sends `joined` (members minus self);
otherwise leave the previous room if any, set the client's `room` field,
create the room entry when absent, send `joined` with the pre-insertion
member snapshot, insert the client, and send `peer-joined` to every other
member. -/
def handleJoinRoomByWs (s : ServerState) (ws : Nat) (rawRoom : Option String) :
    ServerState × List (Nat × SMsg) :=
  match normalizeRoom rawRoom with
  | none => (s, [])
  | some room =>
    if room = "" then (s, [])
    else
      match lookupA s.clientsByWs ws with
      | none => (s, [])
      | some info =>
        if info.room = some room then
          (s, sendTo s.openConns ws (SMsg.joined (filterNe (membersOf s room) info.id) room))
        else
          let leftPrev :=
            if isFalsy info.room then (s, []) else leaveRoomById s info.id info.room
          let s1 := leftPrev.1
          let s2 : ServerState :=
            { s1 with clientsByWs := setA s1.clientsByWs ws { id := info.id, room := some room } }
          let s3 : ServerState :=
            if (lookupA s2.rooms room).isNone then { s2 with rooms := setA s2.rooms room [] }
            else s2
          let set0 := membersOf s3 room
          let ackOut := sendTo s3.openConns ws (SMsg.joined set0 room)
          let set1 := addMem set0 info.id
          let s4 : ServerState := { s3 with rooms := setA s3.rooms room set1 }
          let notifyOut :=
            notifyAll s4.clientsById s4.openConns (filterNe set1 info.id)
              (SMsg.peerJoined info.id room)
          (s4, leftPrev.2 ++ ackOut ++ notifyOut)

/-! ## Signaling relay (lines 184-193) -/

/-- `handleSignaling(from, msg)`: require a target, resolve it through
`clientsById`, and when its socket is `OPEN` forward `{...msg, from}`. -/
def handleSignaling (s : ServerState) (sender : String) (msg : Envelope) :
    ServerState × List (Nat × SMsg) :=
  if isFalsy msg.target then (s, [])
  else
    match msg.target with
    | none => (s, [])
    | some t =>
      match lookupA s.clientsById t with
      | some targetWs =>
        if targetWs ∈ s.openConns then
          (s, sendTo s.openConns targetWs (SMsg.relayed { msg with efrom := some sender }))
        else (s, [])
      | none => (s, [])

/-! ## Message dispatch (lines 64-87) -/

/-- The `ws.on('message')` handler: heartbeat is answered directly; for the
rest, `from = msg.from || info.id`, then dispatch on the message type
(`join-room`, `leave-room`, `offer`/`answer`/`ice-candidate`). -/
def handleMessage (s : ServerState) (ws : Nat) (msg : Envelope) :
    ServerState × List (Nat × SMsg) :=
  if msg.type = "heartbeat" then (s, [(ws, SMsg.pong)])
  else
    match lookupA s.clientsByWs ws with
    | none => (s, [])
    | some info =>
      let sender := strOr msg.efrom info.id
      if msg.type = "join-room" then handleJoinRoomByWs s ws msg.room
      else if msg.type = "leave-room" then leaveRoomById s sender (optOr msg.room info.room)
      else if msg.type = "offer" ∨ msg.type = "answer" ∨ msg.type = "ice-candidate" then
        handleSignaling s sender msg
      else (s, [])

/-! ## Connection lifecycle (lines 34-50) -/

/-- `wss.on('connection')` registration (lines 44-50): store
`{id: generatedId, room: null}` under the socket, map the id to the
socket, and send `client-id`.  `generatedId` stands for the value of
`Math.random().toString(36).substring(2, 9)`; the code performs no
uniqueness check on it. -/
def registerConn (s : ServerState) (ws : Nat) (generatedId : String) :
    ServerState × List (Nat × SMsg) :=
  let s1 : ServerState :=
    { s with clientsByWs := setA s.clientsByWs ws { id := generatedId, room := none },
             clientsById := setA s.clientsById generatedId ws }
  (s1, sendTo s1.openConns ws (SMsg.clientIdMsg generatedId))

/-- `cleanupClient(ws, reason)` (lines 34-42): look up the socket's info,
leave its current room (if any) through `leaveRoomById`, then delete the
socket from `clientsByWs` and its id from `clientsById`. -/
def cleanupClient (s : ServerState) (ws : Nat) : ServerState × List (Nat × SMsg) :=
  match lookupA s.clientsByWs ws with
  | none => (s, [])
  | some info =>
    let leftRoom :=
      if isFalsy info.room then (s, []) else leaveRoomById s info.id info.room
    ({ leftRoom.1 with
        clientsByWs := delA leftRoom.1.clientsByWs ws,
        clientsById := delA leftRoom.1.clientsById info.id }, leftRoom.2)

/-! ## Liveness monitor (lines 52-62) -/

/-- Events seen by one connection's keepalive loop: `probe` is a firing of
the 30-second `pingInterval`, `ack` is an inbound `pong`. -/
inductive PingEvent where
  | probe
  | ack
deriving Repr, DecidableEq

/-- One step of the keepalive state machine: `ack` sets `isAlive = true`;
`probe` terminates the connection when `isAlive` is already `false`,
otherwise clears `isAlive` and pings.  `none` means the connection was
terminated. -/
def pingStep (isAlive : Bool) : PingEvent → Option Bool
  | PingEvent.ack => some true
  | PingEvent.probe => if isAlive then some false else none

/-- Run the keepalive loop over an event trace; `isAlive` starts `true`. -/
def runPing (isAlive : Bool) : List PingEvent → Option Bool
  | [] => some isAlive
  | e :: rest =>
    match pingStep isAlive e with
    | none => none
    | some b => runPing b rest

/-! ## Reachable server states -/

/-- External events driving the server. -/
inductive Step where
  /-- a new transport connects and is registered with a generated id -/
  | connect (ws : Nat) (generatedId : String)
  /-- an inbound frame on an existing transport -/
  | message (ws : Nat) (msg : Envelope)
  /-- the transport closes (or is terminated by the liveness monitor) -/
  | disconnect (ws : Nat)

/-- Effect of one external event on the server state. -/
def applyStep (s : ServerState) : Step → ServerState
  | Step.connect ws gid => (registerConn { s with openConns := addMem s.openConns ws } ws gid).1
  | Step.message ws m => (handleMessage s ws m).1
  | Step.disconnect ws => (cleanupClient { s with openConns := eraseMem s.openConns ws } ws).1

/-- The state of a freshly started server. -/
def initState : ServerState :=
  { rooms := [], clientsById := [], clientsByWs := [], openConns := [] }

/-- States reachable from server start by external events. -/
inductive Reachable : ServerState → Prop where
  | init : Reachable initState
  | step {s : ServerState} (st : Step) : Reachable s → Reachable (applyStep s st)

/-! ## Concrete scenario states, used by witnesses and counterexamples -/

/-- A `join-room` frame. -/
def joinMsg (r : String) : Envelope :=
  { type := "join-room", efrom := none, target := none, room := some r, payload := "" }

/-- A `leave-room` frame with an explicit client-supplied `from`. -/
def leaveMsg (f : Option String) (r : String) : Envelope :=
  { type := "leave-room", efrom := f, target := none, room := some r, payload := "" }

/-- An `offer` frame with a client-supplied `from` and a target. -/
def offerMsg (f : Option String) (t : String) : Envelope :=
  { type := "offer", efrom := f, target := some t, room := none, payload := "sdp" }

/-- Two clients connected: socket 0 has identity `"a"`, socket 1 has `"b"`. -/
def stateAB : ServerState :=
  applyStep (applyStep initState (Step.connect 0 "a")) (Step.connect 1 "b")

/-- `stateAB` after client `"a"` joined room `"R"`. -/
def stateAinR : ServerState := (handleMessage stateAB 0 (joinMsg "R")).1

/-- Client `"a"` alone in room `"Q"`. -/
def stateAinQ : ServerState := (handleMessage stateAB 0 (joinMsg "Q")).1

/-- Both clients in room `"R"` (`"a"` joined first, then `"b"`). -/
def stateABinR : ServerState := (handleMessage stateAinR 1 (joinMsg "R")).1

/-! ## Lemmas: the association-list map model -/

theorem lookupA_setA_self {α β : Type} [DecidableEq α] (l : List (α × β)) (k : α) (v : β) :
    lookupA (setA l k v) k = some v := by
  induction l with
  | nil => simp [setA, lookupA]
  | cons p rest ih =>
    obtain ⟨k0, v0⟩ := p
    by_cases h : k0 = k
    · subst h; simp [setA, lookupA]
    · simp [setA, lookupA, h, ih]

theorem lookupA_setA_ne {α β : Type} [DecidableEq α] (l : List (α × β)) (k k' : α) (v : β)
    (h : k' ≠ k) : lookupA (setA l k v) k' = lookupA l k' := by
  induction l with
  | nil => simp [setA, lookupA, Ne.symm h]
  | cons p rest ih =>
    obtain ⟨k0, v0⟩ := p
    by_cases h0 : k0 = k
    · subst h0
      simp [setA, lookupA, Ne.symm h]
    · simp only [setA, if_neg h0]
      by_cases h1 : k0 = k'
      · simp [lookupA, h1]
      · simp [lookupA, h1, ih]

theorem setA_lookupA_self {α β : Type} [DecidableEq α] (l : List (α × β)) (k : α) (v : β)
    (h : lookupA l k = some v) : setA l k v = l := by
  induction l with
  | nil => simp [lookupA] at h
  | cons p rest ih =>
    obtain ⟨k0, v0⟩ := p
    by_cases h0 : k0 = k
    · subst h0
      simp [lookupA] at h
      simp [setA, h]
    · simp [lookupA, h0] at h
      simp [setA, h0, ih h]

theorem setA_setA {α β : Type} [DecidableEq α] (l : List (α × β)) (k : α) (v w : β) :
    setA (setA l k v) k w = setA l k w := by
  induction l with
  | nil => simp [setA]
  | cons p rest ih =>
    obtain ⟨k0, v0⟩ := p
    by_cases h0 : k0 = k
    · subst h0; simp [setA]
    · simp [setA, h0, ih]

theorem setA_of_lookupA_none {α β : Type} [DecidableEq α] (l : List (α × β)) (k : α) (v : β)
    (h : lookupA l k = none) : setA l k v = l ++ [(k, v)] := by
  induction l with
  | nil => simp [setA]
  | cons p rest ih =>
    obtain ⟨k0, v0⟩ := p
    by_cases h0 : k0 = k
    · subst h0; simp [lookupA] at h
    · simp [lookupA, h0] at h
      simp [setA, h0, ih h]

theorem delA_of_lookupA_none {α β : Type} [DecidableEq α] (l : List (α × β)) (k : α)
    (h : lookupA l k = none) : delA l k = l := by
  induction l with
  | nil => simp [delA]
  | cons p rest ih =>
    obtain ⟨k0, v0⟩ := p
    by_cases h0 : k0 = k
    · subst h0; simp [lookupA] at h
    · simp [lookupA, h0] at h
      simp [delA, h0, ih h]

theorem delA_append {α β : Type} [DecidableEq α] (l1 l2 : List (α × β)) (k : α) :
    delA (l1 ++ l2) k = delA l1 k ++ delA l2 k := by
  induction l1 with
  | nil => simp [delA]
  | cons p rest ih =>
    obtain ⟨k0, v0⟩ := p
    by_cases h0 : k0 = k
    · simp [delA, h0, ih]
    · simp [delA, h0, ih]

theorem lookupA_delA_self {α β : Type} [DecidableEq α] (l : List (α × β)) (k : α) :
    lookupA (delA l k) k = none := by
  induction l with
  | nil => simp [delA, lookupA]
  | cons p rest ih =>
    obtain ⟨k0, v0⟩ := p
    by_cases h0 : k0 = k
    · simp [delA, h0, ih]
    · simp [delA, lookupA, h0, ih]

theorem mem_setA {α β : Type} [DecidableEq α] (l : List (α × β)) (k : α) (v : β)
    (p : α × β) : p ∈ setA l k v → p = (k, v) ∨ p ∈ l := by
  induction l with
  | nil =>
    intro h
    exact Or.inl (by simpa [setA] using h)
  | cons q rest ih =>
    obtain ⟨k0, v0⟩ := q
    intro h
    by_cases h0 : k0 = k
    · subst h0
      simp only [setA, if_true, eq_self_iff_true, List.mem_cons] at h
      rcases h with h | h
      · exact Or.inl h
      · exact Or.inr (List.mem_cons_of_mem _ h)
    · simp only [setA, if_neg h0, List.mem_cons] at h
      rcases h with h | h
      · exact Or.inr (by simp [h])
      · rcases ih h with h' | h'
        · exact Or.inl h'
        · exact Or.inr (List.mem_cons_of_mem _ h')

theorem mem_delA {α β : Type} [DecidableEq α] (l : List (α × β)) (k : α)
    (p : α × β) : p ∈ delA l k → p ∈ l ∧ p.1 ≠ k := by
  induction l with
  | nil =>
    intro h
    simp [delA] at h
  | cons q rest ih =>
    obtain ⟨k0, v0⟩ := q
    intro h
    by_cases h0 : k0 = k
    · simp only [delA, if_pos h0] at h
      exact ⟨List.mem_cons_of_mem _ (ih h).1, (ih h).2⟩
    · simp only [delA, if_neg h0, List.mem_cons] at h
      rcases h with h | h
      · subst h
        exact ⟨by simp, h0⟩
      · exact ⟨List.mem_cons_of_mem _ (ih h).1, (ih h).2⟩

theorem keys_setA {α β : Type} [DecidableEq α] (l : List (α × β)) (k : α) (v : β)
    (a : α) (h : a ∈ (setA l k v).map Prod.fst) : a ∈ l.map Prod.fst ∨ a = k := by
  simp only [List.mem_map] at h
  obtain ⟨p, hp, hpa⟩ := h
  rcases mem_setA l k v p hp with h' | h'
  · right
    rw [← hpa, h']
  · left
    exact List.mem_map.mpr ⟨p, h', hpa⟩

theorem nodupKeys_setA {α β : Type} [DecidableEq α] (l : List (α × β)) (k : α) (v : β)
    (h : (l.map Prod.fst).Nodup) : ((setA l k v).map Prod.fst).Nodup := by
  induction l with
  | nil => simp [setA]
  | cons p rest ih =>
    obtain ⟨k0, v0⟩ := p
    simp only [List.map_cons, List.nodup_cons] at h
    by_cases h0 : k0 = k
    · subst h0
      simpa [setA] using h
    · simp only [setA, if_neg h0, List.map_cons, List.nodup_cons]
      refine ⟨fun hk0 => ?_, ih h.2⟩
      rcases keys_setA rest k v k0 hk0 with h' | h'
      · exact h.1 h'
      · exact h0 h'

theorem nodupKeys_delA {α β : Type} [DecidableEq α] (l : List (α × β)) (k : α)
    (h : (l.map Prod.fst).Nodup) : ((delA l k).map Prod.fst).Nodup := by
  induction l with
  | nil => simp [delA]
  | cons p rest ih =>
    obtain ⟨k0, v0⟩ := p
    simp only [List.map_cons, List.nodup_cons] at h
    by_cases h0 : k0 = k
    · simp only [delA, if_pos h0]
      exact ih h.2
    · simp only [delA, if_neg h0, List.map_cons, List.nodup_cons]
      refine ⟨fun hk0 => ?_, ih h.2⟩
      simp only [List.mem_map] at hk0
      obtain ⟨p, hp, hpa⟩ := hk0
      exact h.1 (List.mem_map.mpr ⟨p, (mem_delA rest k p hp).1, hpa⟩)

theorem mem_setA_nodup {α β : Type} [DecidableEq α] (l : List (α × β)) (k : α) (v : β)
    (p : α × β) : (l.map Prod.fst).Nodup → p ∈ setA l k v →
    p = (k, v) ∨ (p ∈ l ∧ p.1 ≠ k) := by
  induction l with
  | nil =>
    intro _ h
    left
    simpa [setA] using h
  | cons q rest ih =>
    obtain ⟨k0, v0⟩ := q
    intro hnd h
    simp only [List.map_cons, List.nodup_cons] at hnd
    by_cases h0 : k0 = k
    · subst h0
      simp only [setA, if_true, eq_self_iff_true, List.mem_cons] at h
      rcases h with h | h
      · exact Or.inl h
      · refine Or.inr ⟨List.mem_cons_of_mem _ h, fun hk => hnd.1 ?_⟩
        exact List.mem_map.mpr ⟨p, h, hk⟩
    · simp only [setA, if_neg h0, List.mem_cons] at h
      rcases h with h | h
      · subst h
        exact Or.inr ⟨by simp, h0⟩
      · rcases ih hnd.2 h with h' | h'
        · exact Or.inl h'
        · exact Or.inr ⟨List.mem_cons_of_mem _ h'.1, h'.2⟩

/-! ## Lemmas: the set model -/

theorem addMem_of_not_mem {α : Type} [DecidableEq α] (l : List α) (x : α) (h : x ∉ l) :
    addMem l x = l ++ [x] := by
  simp [addMem, h]

theorem addMem_ne_nil {α : Type} [DecidableEq α] (l : List α) (x : α) : addMem l x ≠ [] := by
  by_cases h : x ∈ l
  · simp only [addMem, if_pos h]
    exact List.ne_nil_of_mem h
  · simp [addMem, h]

theorem eraseMem_append_of_not_mem {α : Type} [DecidableEq α] (l : List α) (x : α)
    (h : x ∉ l) : eraseMem (l ++ [x]) x = l := by
  induction l with
  | nil => simp [eraseMem]
  | cons y rest ih =>
    simp only [List.mem_cons, not_or] at h
    have h1 : y ≠ x := fun e => h.1 e.symm
    simp [eraseMem, h1, ih h.2]

theorem not_mem_eraseMem_of_nodup {α : Type} [DecidableEq α] (l : List α) (x : α)
    (h : l.Nodup) : x ∉ eraseMem l x := by
  induction l with
  | nil => simp [eraseMem]
  | cons y rest ih =>
    simp only [List.nodup_cons] at h
    by_cases h0 : y = x
    · subst h0
      simpa [eraseMem] using h.1
    · simp only [eraseMem, if_neg h0, List.mem_cons, not_or]
      exact ⟨fun e => h0 e.symm, ih h.2⟩

theorem mem_eraseMem_of_ne {α : Type} [DecidableEq α] (l : List α) (x y : α)
    (hne : y ≠ x) (h : y ∈ l) : y ∈ eraseMem l x := by
  induction l with
  | nil => simp at h
  | cons z rest ih =>
    by_cases h0 : z = x
    · subst h0
      simp only [eraseMem, if_pos rfl]
      rcases List.mem_cons.mp h with h' | h'
      · exact absurd h' hne
      · exact h'
    · simp only [eraseMem, if_neg h0, List.mem_cons]
      rcases List.mem_cons.mp h with h' | h'
      · exact Or.inl h'
      · exact Or.inr (ih h')

theorem not_mem_filterNe (l : List String) (x : String) : x ∉ filterNe l x := by
  induction l with
  | nil => simp [filterNe]
  | cons y rest ih =>
    by_cases h0 : y = x
    · simpa [filterNe, h0] using ih
    · simp only [filterNe, if_neg h0, List.mem_cons, not_or]
      exact ⟨fun e => h0 e.symm, ih⟩

theorem lookupA_mem {α β : Type} [DecidableEq α] (l : List (α × β)) (k : α) (v : β) :
    lookupA l k = some v → (k, v) ∈ l := by
  induction l with
  | nil =>
    intro h
    simp [lookupA] at h
  | cons p rest ih =>
    obtain ⟨k0, v0⟩ := p
    intro h
    by_cases h0 : k0 = k
    · subst h0
      simp only [lookupA, if_true, eq_self_iff_true, Option.some.injEq] at h
      subst h
      simp
    · simp only [lookupA, if_neg h0] at h
      exact List.mem_cons_of_mem _ (ih h)

theorem mem_sendTo (openConns : List Nat) (w : Nat) (m : SMsg) (p : Nat × SMsg)
    (h : p ∈ sendTo openConns w m) : p = (w, m) := by
  unfold sendTo at h
  by_cases ho : w ∈ openConns
  · simpa [ho] using h
  · simp [ho] at h

/-! ## Characterizations of the room operations -/

/-- Fresh join (the connection is in no room, its identity not yet a member):
the `joined` snapshot is the pre-insertion member list, the identity is
appended to the member set, the connection's `room` field is set, and
`peer-joined` goes to the other members of the updated set. -/
theorem handleJoinRoomByWs_fresh (s : ServerState) (ws : Nat) (i : String)
    (raw rn : String)
    (hnorm : normalizeRoom (some raw) = some rn) (hne : rn ≠ "")
    (hinfo : lookupA s.clientsByWs ws = some { id := i, room := none })
    (hmem : i ∉ membersOf s rn) :
    handleJoinRoomByWs s ws (some raw) =
      ({ s with rooms := setA s.rooms rn (membersOf s rn ++ [i]),
                clientsByWs := setA s.clientsByWs ws { id := i, room := some rn } },
        sendTo s.openConns ws (SMsg.joined (membersOf s rn) rn) ++
          notifyAll s.clientsById s.openConns (filterNe (membersOf s rn ++ [i]) i)
            (SMsg.peerJoined i rn)) := by
  unfold handleJoinRoomByWs
  rw [hnorm]
  cases hr : lookupA s.rooms rn with
  | none =>
    simp [hne, hinfo, isFalsy, hr, membersOf, setA_setA, addMem, lookupA_setA_self]
  | some set0 =>
    have hm : membersOf s rn = set0 := by simp [membersOf, hr]
    rw [hm] at hmem
    simp [hne, hinfo, isFalsy, hr, membersOf, addMem, hmem]

/-- Re-join of the current room: the state is unchanged and the only output
is a fresh `joined` reply listing the members minus the joiner itself. -/
theorem handleJoinRoomByWs_rejoin (s : ServerState) (ws : Nat) (i : String)
    (raw rn : String)
    (hnorm : normalizeRoom (some raw) = some rn) (hne : rn ≠ "")
    (hinfo : lookupA s.clientsByWs ws = some { id := i, room := some rn }) :
    handleJoinRoomByWs s ws (some raw) =
      (s, sendTo s.openConns ws (SMsg.joined (filterNe (membersOf s rn) i) rn)) := by
  unfold handleJoinRoomByWs
  rw [hnorm]
  simp [hne, hinfo]

/-- Leave of a member: the output is `peer-left` to the remaining members,
the room entry maps to the erased member set (and is gone when that set is
empty), and `clientsById` / `openConns` are untouched. -/
theorem leaveRoomById_mem (s : ServerState) (i : String) (raw rn : String)
    (set0 : List String)
    (hnorm : normalizeRoom (some raw) = some rn) (hne : rn ≠ "")
    (hset : lookupA s.rooms rn = some set0) (hmem : i ∈ set0) :
    (leaveRoomById s i (some raw)).2 =
      notifyAll s.clientsById s.openConns (eraseMem set0 i) (SMsg.peerLeft i rn) ∧
    lookupA (leaveRoomById s i (some raw)).1.rooms rn =
      (if eraseMem set0 i = [] then none else some (eraseMem set0 i)) ∧
    (leaveRoomById s i (some raw)).1.clientsById = s.clientsById ∧
    (leaveRoomById s i (some raw)).1.openConns = s.openConns := by
  unfold leaveRoomById
  rw [hnorm]
  cases hby : lookupA s.clientsById i with
  | none =>
    by_cases h1 : eraseMem set0 i = []
    · simp [hne, hset, hmem, hby, h1, lookupA_delA_self]
    · simp [hne, hset, hmem, hby, h1, lookupA_setA_self]
  | some cws =>
    cases hbw : lookupA s.clientsByWs cws with
    | none =>
      by_cases h1 : eraseMem set0 i = []
      · simp [hne, hset, hmem, hby, hbw, h1, lookupA_delA_self]
      · simp [hne, hset, hmem, hby, hbw, h1, lookupA_setA_self]
    | some info =>
      by_cases h1 : eraseMem set0 i = []
      · simp [hne, hset, hmem, hby, hbw, h1, lookupA_delA_self]
      · simp [hne, hset, hmem, hby, hbw, h1, lookupA_setA_self]

/-- `cleanupClient` on a connection with a current room is exactly: run
`leaveRoomById` (the same function the `leave-room` message uses), then
delete the socket and the identity from the registry. -/
theorem cleanupClient_eq_leave (s : ServerState) (ws : Nat) (i : String) (rn : String)
    (hinfo : lookupA s.clientsByWs ws = some { id := i, room := some rn })
    (hne : rn ≠ "") :
    cleanupClient s ws =
      ({ (leaveRoomById s i (some rn)).1 with
          clientsByWs := delA (leaveRoomById s i (some rn)).1.clientsByWs ws,
          clientsById := delA (leaveRoomById s i (some rn)).1.clientsById i },
        (leaveRoomById s i (some rn)).2) := by
  unfold cleanupClient
  rw [hinfo]
  simp [isFalsy, hne]

/-- Join then leave (with possibly different spellings of the same room
code) restores the full server state, provided the identity was not in a
room, its socket is registered, and the target room does not already hold
the identity (nor an empty member set). -/
theorem join_leave_restore (s : ServerState) (ws : Nat) (i : String)
    (raw1 raw2 rn : String)
    (h1 : normalizeRoom (some raw1) = some rn)
    (h2 : normalizeRoom (some raw2) = some rn) (hne : rn ≠ "")
    (hinfo : lookupA s.clientsByWs ws = some { id := i, room := none })
    (hbyId : lookupA s.clientsById i = some ws)
    (hmem : i ∉ membersOf s rn)
    (hinv : ∀ v, lookupA s.rooms rn = some v → v ≠ []) :
    (leaveRoomById (handleJoinRoomByWs s ws (some raw1)).1 i (some raw2)).1 = s := by
  rw [handleJoinRoomByWs_fresh s ws i raw1 rn h1 hne hinfo hmem]
  unfold leaveRoomById
  rw [h2]
  have hlook : lookupA (setA s.rooms rn (membersOf s rn ++ [i])) rn =
      some (membersOf s rn ++ [i]) := lookupA_setA_self _ _ _
  have hiMem : i ∈ membersOf s rn ++ [i] := by simp
  have hErase : eraseMem (membersOf s rn ++ [i]) i = membersOf s rn :=
    eraseMem_append_of_not_mem _ _ hmem
  have hbw : lookupA (setA s.clientsByWs ws { id := i, room := some rn }) ws =
      some { id := i, room := some rn } := lookupA_setA_self _ _ _
  have hRestoreWs :
      setA (setA s.clientsByWs ws { id := i, room := some rn }) ws { id := i, room := none } =
        s.clientsByWs := by
    rw [setA_setA]
    exact setA_lookupA_self _ _ _ hinfo
  simp only [if_neg hne, hlook, hiMem, if_true, hErase, hbyId, hbw, hRestoreWs]
  by_cases hm0 : membersOf s rn = []
  · have hnone : lookupA s.rooms rn = none := by
      cases hr : lookupA s.rooms rn with
      | none => rfl
      | some v =>
        have hv : v = [] := by simpa [membersOf, hr] using hm0
        exact absurd hv (hinv v hr)
    have hRooms : delA (setA (setA s.rooms rn [i]) rn []) rn = s.rooms := by
      rw [setA_setA, setA_of_lookupA_none _ _ _ hnone, delA_append,
        delA_of_lookupA_none _ _ hnone]
      simp [delA]
    simp [hm0, hRooms]
  · have hsome : lookupA s.rooms rn = some (membersOf s rn) := by
      cases hr : lookupA s.rooms rn with
      | none => simp [membersOf, hr] at hm0
      | some v => simp [membersOf, hr]
    have hRooms : setA (setA s.rooms rn (membersOf s rn ++ [i])) rn (membersOf s rn) =
        s.rooms := by
      rw [setA_setA]
      exact setA_lookupA_self _ _ _ hsome
    simp [hm0, hRooms]

/-! ## The room-directory invariant (room entry exists iff non-empty) -/

/-- Well-formed room directory: distinct room keys, and every room entry
present in the map has a non-empty member set. -/
def RoomsWF (s : ServerState) : Prop :=
  (s.rooms.map Prod.fst).Nodup ∧ ∀ p ∈ s.rooms, p.2 ≠ []

theorem roomsWF_delA_setA (rooms : List (String × List String)) (rn : String)
    (v : List String) (hnd : (rooms.map Prod.fst).Nodup)
    (hNE : ∀ p ∈ rooms, p.2 ≠ []) :
    ((delA (setA rooms rn v) rn).map Prod.fst).Nodup ∧
      ∀ p ∈ delA (setA rooms rn v) rn, p.2 ≠ [] := by
  refine ⟨nodupKeys_delA _ _ (nodupKeys_setA _ _ _ hnd), fun p hp => ?_⟩
  obtain ⟨hp1, hp2⟩ := mem_delA _ _ _ hp
  rcases mem_setA _ _ _ _ hp1 with he | hmem
  · exact absurd (by rw [he]) hp2
  · exact hNE p hmem

theorem roomsWF_setA (rooms : List (String × List String)) (rn : String)
    (v : List String) (hv : v ≠ []) (hnd : (rooms.map Prod.fst).Nodup)
    (hNE : ∀ p ∈ rooms, p.2 ≠ []) :
    ((setA rooms rn v).map Prod.fst).Nodup ∧ ∀ p ∈ setA rooms rn v, p.2 ≠ [] := by
  refine ⟨nodupKeys_setA _ _ _ hnd, fun p hp => ?_⟩
  rcases mem_setA _ _ _ _ hp with he | hmem
  · rw [he]
    exact hv
  · exact hNE p hmem

theorem roomsWF_leave (s : ServerState) (i : String) (raw : Option String)
    (h : RoomsWF s) : RoomsWF (leaveRoomById s i raw).1 := by
  unfold leaveRoomById
  cases hn : normalizeRoom raw with
  | none => exact h
  | some rn =>
    by_cases hne : rn = ""
    · simpa [hne] using h
    · cases hr : lookupA s.rooms rn with
      | none => simpa [hne, hr] using h
      | some set0 =>
        by_cases hm : i ∈ set0
        · cases hby : lookupA s.clientsById i with
          | none =>
            by_cases h1 : eraseMem set0 i = []
            · simpa [RoomsWF, hne, hr, hm, hby, h1] using
                roomsWF_delA_setA s.rooms rn (eraseMem set0 i) h.1 h.2
            · simpa [RoomsWF, hne, hr, hm, hby, h1] using
                roomsWF_setA s.rooms rn (eraseMem set0 i) h1 h.1 h.2
          | some cws =>
            cases hbw : lookupA s.clientsByWs cws with
            | none =>
              by_cases h1 : eraseMem set0 i = []
              · simpa [RoomsWF, hne, hr, hm, hby, hbw, h1] using
                  roomsWF_delA_setA s.rooms rn (eraseMem set0 i) h.1 h.2
              · simpa [RoomsWF, hne, hr, hm, hby, hbw, h1] using
                  roomsWF_setA s.rooms rn (eraseMem set0 i) h1 h.1 h.2
            | some info =>
              by_cases h1 : eraseMem set0 i = []
              · simpa [RoomsWF, hne, hr, hm, hby, hbw, h1] using
                  roomsWF_delA_setA s.rooms rn (eraseMem set0 i) h.1 h.2
              · simpa [RoomsWF, hne, hr, hm, hby, hbw, h1] using
                  roomsWF_setA s.rooms rn (eraseMem set0 i) h1 h.1 h.2
        · simpa [hne, hr, hm] using h

theorem roomsWF_join_rooms (rooms1 : List (String × List String)) (rn i0 : String)
    (hnd : (rooms1.map Prod.fst).Nodup) (hNE : ∀ p ∈ rooms1, p.2 ≠ []) :
    ((setA (if (lookupA rooms1 rn).isNone then setA rooms1 rn [] else rooms1) rn
        (addMem ((lookupA (if (lookupA rooms1 rn).isNone then setA rooms1 rn [] else rooms1)
          rn).getD []) i0)).map Prod.fst).Nodup ∧
      ∀ p ∈ setA (if (lookupA rooms1 rn).isNone then setA rooms1 rn [] else rooms1) rn
        (addMem ((lookupA (if (lookupA rooms1 rn).isNone then setA rooms1 rn [] else rooms1)
          rn).getD []) i0), p.2 ≠ [] := by
  by_cases hr : (lookupA rooms1 rn).isNone
  · simp only [hr, if_true, setA_setA]
    exact roomsWF_setA _ _ _ (addMem_ne_nil _ _) hnd hNE
  · simp only [hr, if_false, Bool.false_eq_true]
    exact roomsWF_setA _ _ _ (addMem_ne_nil _ _) hnd hNE

theorem roomsWF_join (s : ServerState) (ws : Nat) (raw : Option String)
    (h : RoomsWF s) : RoomsWF (handleJoinRoomByWs s ws raw).1 := by
  unfold handleJoinRoomByWs
  cases hn : normalizeRoom raw with
  | none => exact h
  | some rn =>
    by_cases hne : rn = ""
    · simpa [hne] using h
    · cases hbw : lookupA s.clientsByWs ws with
      | none => simpa [hne, hbw] using h
      | some info =>
        by_cases hre : info.room = some rn
        · simpa [hne, hbw, hre] using h
        · by_cases hf : isFalsy info.room
          · simpa [RoomsWF, hne, hbw, hre, hf, membersOf, apply_ite ServerState.rooms] using
              roomsWF_join_rooms s.rooms rn info.id h.1 h.2
          · have hs1 := roomsWF_leave s info.id info.room h
            simpa [RoomsWF, hne, hbw, hre, hf, membersOf, apply_ite ServerState.rooms] using
              roomsWF_join_rooms (leaveRoomById s info.id info.room).1.rooms rn info.id
                hs1.1 hs1.2

theorem handleSignaling_state (s : ServerState) (sender : String) (msg : Envelope) :
    (handleSignaling s sender msg).1 = s := by
  unfold handleSignaling
  by_cases hf : isFalsy msg.target
  · simp [hf]
  · cases ht : msg.target with
    | none =>
      rw [ht] at hf
      simp [isFalsy] at hf
    | some t =>
      rw [ht] at hf
      cases hby : lookupA s.clientsById t with
      | none => simp [hf, hby]
      | some targetWs =>
        by_cases ho : targetWs ∈ s.openConns
        · simp [hf, hby, ho]
        · simp [hf, hby, ho]

theorem roomsWF_handleMessage (s : ServerState) (ws : Nat) (msg : Envelope)
    (h : RoomsWF s) : RoomsWF (handleMessage s ws msg).1 := by
  unfold handleMessage
  by_cases hb : msg.type = "heartbeat"
  · simpa [hb] using h
  · rw [if_neg hb]
    cases hbw : lookupA s.clientsByWs ws with
    | none => exact h
    | some info =>
      by_cases hj : msg.type = "join-room"
      · simpa [hj, hb] using roomsWF_join s ws msg.room h
      · by_cases hl : msg.type = "leave-room"
        · simpa [hj, hl, hb] using
            roomsWF_leave s (strOr msg.efrom info.id) (optOr msg.room info.room) h
        · by_cases hsig : msg.type = "offer" ∨ msg.type = "answer" ∨ msg.type = "ice-candidate"
          · have := handleSignaling_state s (strOr msg.efrom info.id) msg
            simp only [if_neg hj, if_neg hl, if_pos hsig]
            rw [this]
            exact h
          · simp only [if_neg hj, if_neg hl, if_neg hsig]
            exact h

theorem roomsWF_registerConn (s : ServerState) (ws : Nat) (gid : String)
    (h : RoomsWF s) : RoomsWF (registerConn s ws gid).1 := by
  simpa [registerConn, RoomsWF] using h

theorem roomsWF_cleanupClient (s : ServerState) (ws : Nat)
    (h : RoomsWF s) : RoomsWF (cleanupClient s ws).1 := by
  unfold cleanupClient
  cases hbw : lookupA s.clientsByWs ws with
  | none => exact h
  | some info =>
    by_cases hf : isFalsy info.room
    · simpa [hf, RoomsWF] using h
    · have := roomsWF_leave s info.id info.room h
      simpa [hf, RoomsWF] using this

theorem roomsWF_openConns (s : ServerState) (l : List Nat)
    (h : RoomsWF s) : RoomsWF { s with openConns := l } := h

/-- The spec invariant over all reachable states: a room entry exists in
the directory only with a non-empty member set (and room keys stay
distinct). -/
theorem reachable_roomsWF (s : ServerState) (h : Reachable s) : RoomsWF s := by
  induction h with
  | init => exact ⟨by simp [initState], by simp [initState]⟩
  | step st _ ih =>
    cases st with
    | connect ws gid =>
      exact roomsWF_registerConn _ ws gid (roomsWF_openConns _ _ ih)
    | message ws m => exact roomsWF_handleMessage _ ws m ih
    | disconnect ws => exact roomsWF_cleanupClient _ ws (roomsWF_openConns _ _ ih)

/-! ## Claim C1: sender stamping on relayed envelopes -/

/-- C1 counterexample: on the connection whose server-assigned identity is
`"a"`, an `offer` carrying a client-supplied `from := "zzz"` is relayed to
`"b"` with `from = "zzz"` — not with the sender's server-assigned identity
(`from = msg.from || info.id` trusts a non-empty client `from`). -/
theorem relay_trusts_client_from_cex :
    lookupA stateABinR.clientsByWs 0 = some { id := "a", room := some "R" } ∧
    (handleMessage stateABinR 0 (offerMsg (some "zzz") "b")).2 =
      [(1, SMsg.relayed
        { type := "offer", efrom := some "zzz", target := some "b",
          room := none, payload := "sdp" })] ∧
    ("zzz" : String) ≠ "a" :=
  ⟨by decide, by decide, by decide⟩

/-- C1 amended: a delivered relay carries `from = msg.from` whenever the
client supplied a non-empty `from` field, and the server-assigned identity
of the sending connection only otherwise (`from = msg.from || info.id`). -/
theorem relayed_from_client_or_server (s : ServerState) (ws : Nat) (msg : Envelope)
    (info : ClientInfo) (t : String) (tws : Nat)
    (htype : msg.type = "offer" ∨ msg.type = "answer" ∨ msg.type = "ice-candidate")
    (hinfo : lookupA s.clientsByWs ws = some info)
    (ht : msg.target = some t) (htne : t ≠ "")
    (htws : lookupA s.clientsById t = some tws) (hopen : tws ∈ s.openConns) :
    handleMessage s ws msg =
      (s, [(tws, SMsg.relayed { msg with efrom := some (strOr msg.efrom info.id) })]) := by
  have hb : msg.type ≠ "heartbeat" := by
    rcases htype with h | h | h <;> simp [h]
  have hj : msg.type ≠ "join-room" := by
    rcases htype with h | h | h <;> simp [h]
  have hl : msg.type ≠ "leave-room" := by
    rcases htype with h | h | h <;> simp [h]
  unfold handleMessage handleSignaling
  simp [hb, hinfo, hj, hl, htype, ht, isFalsy, htne, htws, hopen, sendTo]

/-- C1 amended, witness. -/
theorem relayed_from_client_or_server_witness :
    handleMessage stateABinR 0 (offerMsg (some "zzz") "b") =
      (stateABinR, [(1, SMsg.relayed { offerMsg (some "zzz") "b" with
        efrom := some (strOr (some "zzz") "a") })]) :=
  relayed_from_client_or_server stateABinR 0 (offerMsg (some "zzz") "b")
    { id := "a", room := some "R" } "b" 1 (Or.inl rfl) (by decide) rfl
    (by decide) (by decide) (by decide)

/-! ## Claim C2: room entry exists iff non-empty; join/leave round trip -/

/-- C2 counterexample: client `"a"` is alone in room `"Q"`; joining `"R"`
and then leaving `"R"` does not return the directory to its pre-join state
(the join silently removed `"a"` from `"Q"` and deleted `"Q"`). -/
theorem join_leave_other_room_cex :
    stateAinQ.rooms = [("Q", ["a"])] ∧
    (handleMessage (handleMessage stateAinQ 0 (joinMsg "R")).1 0
      (leaveMsg none "R")).1.rooms = [] ∧
    ([] : List (String × List String)) ≠ [("Q", ["a"])] :=
  ⟨by decide, by decide, by decide⟩

/-- C2 amended: in every reachable state a room entry exists in the
directory only with a non-empty member set; and join-then-leave on the same
room restores the entire directory state provided the identity was not
already in another room. -/
theorem rooms_iff_nonempty_and_roundtrip :
    (∀ s, Reachable s → ∀ r set0, lookupA s.rooms r = some set0 → set0 ≠ []) ∧
    (∀ s ws i raw rn, normalizeRoom (some raw) = some rn → rn ≠ "" →
      lookupA s.clientsByWs ws = some { id := i, room := none } →
      lookupA s.clientsById i = some ws →
      i ∉ membersOf s rn →
      (∀ v, lookupA s.rooms rn = some v → v ≠ []) →
      (leaveRoomById (handleJoinRoomByWs s ws (some raw)).1 i (some raw)).1 = s) := by
  constructor
  · intro s hs r set0 hlook
    exact (reachable_roomsWF s hs).2 (r, set0) (lookupA_mem _ _ _ hlook)
  · intro s ws i raw rn h1 h2 h3 h4 h5 h6
    exact join_leave_restore s ws i raw raw rn h1 h1 h2 h3 h4 h5 h6

/-- C2 amended, witness. -/
theorem rooms_iff_nonempty_and_roundtrip_witness :
    (leaveRoomById (handleJoinRoomByWs stateAB 0 (some " r ")).1 "a" (some " r ")).1 =
      stateAB :=
  rooms_iff_nonempty_and_roundtrip.2 stateAB 0 "a" " r " "R" (by decide) (by decide)
    (by decide) (by decide) (by decide)
    (fun v hv => by
      rw [show lookupA stateAB.rooms "R" = none from by decide] at hv
      cases hv)

/-! ## Claim C3: re-join idempotence -/

/-- C3: after a fresh join, a second `join-room` for the same room without
an intervening leave leaves the state (member set and `room` field)
unchanged, emits no `peer-joined`, and across the two joins the room's
membership grows by at most one. -/
theorem rejoin_idempotent (s : ServerState) (ws : Nat) (i raw rn : String)
    (hnorm : normalizeRoom (some raw) = some rn) (hne : rn ≠ "")
    (hinfo : lookupA s.clientsByWs ws = some { id := i, room := none })
    (hmem : i ∉ membersOf s rn) :
    (handleJoinRoomByWs (handleJoinRoomByWs s ws (some raw)).1 ws (some raw)).1 =
      (handleJoinRoomByWs s ws (some raw)).1 ∧
    (∀ p ∈ (handleJoinRoomByWs (handleJoinRoomByWs s ws (some raw)).1 ws (some raw)).2,
      ∀ pid r, p.2 ≠ SMsg.peerJoined pid r) ∧
    (membersOf (handleJoinRoomByWs (handleJoinRoomByWs s ws (some raw)).1 ws
        (some raw)).1 rn).length ≤
      (membersOf s rn).length + 1 := by
  have hfresh := handleJoinRoomByWs_fresh s ws i raw rn hnorm hne hinfo hmem
  have hinfo1 : lookupA (handleJoinRoomByWs s ws (some raw)).1.clientsByWs ws =
      some { id := i, room := some rn } := by
    rw [hfresh]
    exact lookupA_setA_self _ _ _
  have hrejoin := handleJoinRoomByWs_rejoin (handleJoinRoomByWs s ws (some raw)).1 ws i raw rn
    hnorm hne hinfo1
  have hm1 : membersOf (handleJoinRoomByWs s ws (some raw)).1 rn = membersOf s rn ++ [i] := by
    rw [hfresh]
    simp [membersOf, lookupA_setA_self]
  refine ⟨?_, ?_, ?_⟩
  · rw [hrejoin]
  · intro p hp pid r
    rw [hrejoin] at hp
    have hpe := mem_sendTo _ _ _ _ hp
    rw [hpe]
    simp
  · rw [hrejoin, hm1]
    simp

/-! ## Claim C4: joined reply carries the pre-insertion peer snapshot -/

/-- C4: (a) for a fresh join the `joined` reply (always the first output)
carries exactly the pre-insertion member snapshot, which does not contain
the joiner; (b) for a re-join the reply is the member list with the joiner
filtered out, so it never contains the joiner; (c) concretely, after `"a"`
joins empty room `"R"` and `"b"` joins `"R"`, `"b"`'s reply lists exactly
`["a"]`. -/
theorem joined_peers_pre_insertion :
    (∀ s ws i raw rn, normalizeRoom (some raw) = some rn → rn ≠ "" →
      lookupA s.clientsByWs ws = some { id := i, room := none } →
      i ∉ membersOf s rn → ws ∈ s.openConns →
      (handleJoinRoomByWs s ws (some raw)).2.head? =
        some (ws, SMsg.joined (membersOf s rn) rn)) ∧
    (∀ s ws i raw rn, normalizeRoom (some raw) = some rn → rn ≠ "" →
      lookupA s.clientsByWs ws = some { id := i, room := some rn } → ws ∈ s.openConns →
      (handleJoinRoomByWs s ws (some raw)).2 =
        [(ws, SMsg.joined (filterNe (membersOf s rn) i) rn)] ∧
      i ∉ filterNe (membersOf s rn) i) ∧
    (handleMessage stateAinR 1 (joinMsg "R")).2.head? =
      some (1, SMsg.joined ["a"] "R") := by
  refine ⟨?_, ?_, by decide⟩
  · intro s ws i raw rn hnorm hne hinfo hmem hopen
    rw [handleJoinRoomByWs_fresh s ws i raw rn hnorm hne hinfo hmem]
    simp [sendTo, hopen]
  · intro s ws i raw rn hnorm hne hinfo hopen
    rw [handleJoinRoomByWs_rejoin s ws i raw rn hnorm hne hinfo]
    exact ⟨by simp [sendTo, hopen], not_mem_filterNe _ _⟩

/-- C4 witness. -/
theorem joined_peers_pre_insertion_witness :
    (handleJoinRoomByWs stateAinR 1 (some "R")).2.head? =
      some (1, SMsg.joined (membersOf stateAinR "R") "R") :=
  joined_peers_pre_insertion.1 stateAinR 1 "b" "R" "R" (by decide) (by decide)
    (by decide) (by decide) (by decide)

/-! ## Claim C5: order of ack, insertion and notifications on a join -/

/-- C5 counterexample: when `"b"` joins room `"R"` already holding `"a"`,
the server emits the `joined` acknowledgment to the joiner first and the
`peer-joined` notification to the existing member afterwards — the
acknowledgment to the joiner is not sent last. -/
theorem join_ack_not_last_cex :
    (handleMessage stateAinR 1 (joinMsg "R")).2 =
      [(1, SMsg.joined ["a"] "R"), (0, SMsg.peerJoined "b" "R")] ∧
    (handleMessage stateAinR 1 (joinMsg "R")).2.getLast? =
      some (0, SMsg.peerJoined "b" "R") :=
  ⟨by decide, by decide⟩

/-- C5 amended: on a fresh join the server sends the `joined`
acknowledgment (carrying the pre-insertion member snapshot) first, then
inserts the identity into the member set, and only then sends `peer-joined`
to the other members of the updated set. -/
theorem join_ack_first_then_insert_notify (s : ServerState) (ws : Nat) (i raw rn : String)
    (hnorm : normalizeRoom (some raw) = some rn) (hne : rn ≠ "")
    (hinfo : lookupA s.clientsByWs ws = some { id := i, room := none })
    (hmem : i ∉ membersOf s rn) (hopen : ws ∈ s.openConns) :
    (handleJoinRoomByWs s ws (some raw)).2 =
      (ws, SMsg.joined (membersOf s rn) rn) ::
        notifyAll s.clientsById s.openConns (filterNe (membersOf s rn ++ [i]) i)
          (SMsg.peerJoined i rn) ∧
    (handleJoinRoomByWs s ws (some raw)).1.rooms =
      setA s.rooms rn (membersOf s rn ++ [i]) := by
  rw [handleJoinRoomByWs_fresh s ws i raw rn hnorm hne hinfo hmem]
  exact ⟨by simp [sendTo, hopen], rfl⟩

/-- C5 amended, witness. -/
theorem join_ack_first_then_insert_notify_witness :
    (handleJoinRoomByWs stateAinR 1 (some "R")).2 =
      (1, SMsg.joined (membersOf stateAinR "R") "R") ::
        notifyAll stateAinR.clientsById stateAinR.openConns
          (filterNe (membersOf stateAinR "R" ++ ["b"]) "b") (SMsg.peerJoined "b" "R") ∧
    (handleJoinRoomByWs stateAinR 1 (some "R")).1.rooms =
      setA stateAinR.rooms "R" (membersOf stateAinR "R" ++ ["b"]) :=
  join_ack_first_then_insert_notify stateAinR 1 "b" "R" "R" (by decide) (by decide)
    (by decide) (by decide) (by decide)

/-! ## Claim C6: room-code normalization (case and whitespace) -/

/-- C6: two spellings of a room code with the same normalization (equal up
to letter case and leading/trailing whitespace) resolve to the same room:
join and leave behave identically for either spelling, and a leave using
one spelling undoes a join using the other. -/
theorem room_code_normalized_equiv (r1 r2 : String)
    (heq : normalizeRoom (some r1) = normalizeRoom (some r2)) :
    (∀ s ws, handleJoinRoomByWs s ws (some r1) = handleJoinRoomByWs s ws (some r2)) ∧
    (∀ s i, leaveRoomById s i (some r1) = leaveRoomById s i (some r2)) ∧
    (∀ s ws i rn, normalizeRoom (some r1) = some rn → rn ≠ "" →
      lookupA s.clientsByWs ws = some { id := i, room := none } →
      lookupA s.clientsById i = some ws → i ∉ membersOf s rn →
      (∀ v, lookupA s.rooms rn = some v → v ≠ []) →
      (leaveRoomById (handleJoinRoomByWs s ws (some r1)).1 i (some r2)).1 = s) := by
  refine ⟨?_, ?_, ?_⟩
  · intro s ws
    unfold handleJoinRoomByWs
    rw [heq]
  · intro s i
    unfold leaveRoomById
    rw [heq]
  · intro s ws i rn h1 hne hinfo hbyId hmem hinv
    exact join_leave_restore s ws i r1 r2 rn h1 (heq.symm.trans h1) hne hinfo hbyId
      hmem hinv

/-- C6 witness. -/
theorem room_code_normalized_equiv_witness :
    (leaveRoomById (handleJoinRoomByWs stateAB 0 (some " r ")).1 "a" (some "R")).1 =
      stateAB :=
  (room_code_normalized_equiv " r " "R" (by decide)).2.2 stateAB 0 "a" "R" (by decide)
    (by decide) (by decide) (by decide) (by decide)
    (fun v hv => by
      rw [show lookupA stateAB.rooms "R" = none from by decide] at hv
      cases hv)

/-- C3 witness. -/
theorem rejoin_idempotent_witness :
    (handleJoinRoomByWs (handleJoinRoomByWs stateAB 0 (some " r ")).1 0 (some " r ")).1 =
      (handleJoinRoomByWs stateAB 0 (some " r ")).1 ∧
    (∀ p ∈ (handleJoinRoomByWs (handleJoinRoomByWs stateAB 0 (some " r ")).1 0
        (some " r ")).2, ∀ pid r, p.2 ≠ SMsg.peerJoined pid r) ∧
    (membersOf (handleJoinRoomByWs (handleJoinRoomByWs stateAB 0 (some " r ")).1 0
        (some " r ")).1 "R").length ≤ (membersOf stateAB "R").length + 1 :=
  rejoin_idempotent stateAB 0 "a" " r " "R" (by decide) (by decide) (by decide) (by decide)


/-! ## Claim C7: identity uniqueness at registration -/

/-- C7 counterexample: two transports (sockets 0 and 1) register with the
same generated value `"aaa"`; both remain registered under identity
`"aaa"` (the identity is reused, not regenerated) and `clientsById` is
overwritten to the newer socket. -/
theorem identity_collision_cex :
    lookupA (registerConn (registerConn initState 0 "aaa").1 1 "aaa").1.clientsByWs 0 =
      some { id := "aaa", room := none } ∧
    lookupA (registerConn (registerConn initState 0 "aaa").1 1 "aaa").1.clientsByWs 1 =
      some { id := "aaa", room := none } ∧
    lookupA (registerConn (registerConn initState 0 "aaa").1 1 "aaa").1.clientsById
      "aaa" = some 1 ∧
    (0 : Nat) ≠ 1 :=
  ⟨by decide, by decide, by decide, by decide⟩

/-- C7 amended: registration performs no collision check — the registered
identities stay pairwise distinct exactly when the freshly generated value
differs from every identity already registered; on a collision the
generated identity is reused for the new connection rather than
regenerated. -/
theorem register_unique_of_fresh (s : ServerState) (ws : Nat) (gid : String)
    (hws : lookupA s.clientsByWs ws = none)
    (hfresh : gid ∉ registeredIds s)
    (hnd : (registeredIds s).Nodup) :
    (registeredIds (registerConn s ws gid).1).Nodup := by
  have h2 : registeredIds (registerConn s ws gid).1 = registeredIds s ++ [gid] := by
    unfold registerConn registeredIds
    rw [setA_of_lookupA_none _ _ _ hws]
    simp
  rw [h2]
  simp only [List.nodup_append, List.nodup_cons, List.not_mem_nil, not_false_iff,
    List.nodup_nil, and_true, true_and]
  exact ⟨hnd, fun x hx => by
    simp only [List.mem_singleton]
    intro he
    exact hfresh (he ▸ hx)⟩

/-- C7 amended, witness. -/
theorem register_unique_of_fresh_witness :
    (registeredIds (registerConn stateAB 2 "c").1).Nodup :=
  register_unique_of_fresh stateAB 2 "c" (by decide) (by decide) (by decide)

/-! ## Claim C8: unresolvable relay targets are dropped silently -/

/-- C8: an `offer` / `answer` / `ice-candidate` whose target has no live
(registered and open) connection is dropped: no message is sent to anyone,
no error goes back to the sender, and the whole server state (registry and
room directory) is unchanged. -/
theorem signaling_unknown_target_dropped (s : ServerState) (ws : Nat) (msg : Envelope)
    (t : String)
    (htype : msg.type = "offer" ∨ msg.type = "answer" ∨ msg.type = "ice-candidate")
    (ht : msg.target = some t)
    (hdead : ∀ w, lookupA s.clientsById t = some w → w ∉ s.openConns) :
    handleMessage s ws msg = (s, []) := by
  have hb : msg.type ≠ "heartbeat" := by
    rcases htype with h | h | h <;> simp [h]
  have hj : msg.type ≠ "join-room" := by
    rcases htype with h | h | h <;> simp [h]
  have hl : msg.type ≠ "leave-room" := by
    rcases htype with h | h | h <;> simp [h]
  unfold handleMessage handleSignaling
  cases hbw : lookupA s.clientsByWs ws with
  | none => simp [hb, hbw]
  | some info =>
    by_cases hte : t = ""
    · simp [hb, hbw, hj, hl, htype, ht, isFalsy, hte]
    · cases hby : lookupA s.clientsById t with
      | none => simp [hb, hbw, hj, hl, htype, ht, isFalsy, hte, hby]
      | some w =>
        have hw := hdead w hby
        simp [hb, hbw, hj, hl, htype, ht, isFalsy, hte, hby, hw]

/-- C8 witness. -/
theorem signaling_unknown_target_dropped_witness :
    handleMessage stateABinR 0 (offerMsg none "ghost") = (stateABinR, []) :=
  signaling_unknown_target_dropped stateABinR 0 (offerMsg none "ghost") "ghost"
    (Or.inl rfl) rfl
    (fun w hw => by
      rw [show lookupA stateABinR.clientsById "ghost" = none from by decide] at hw
      cases hw)

/-! ## Claim C9: liveness eviction and its cleanup path -/

/-- C9: a `probe` firing while the previous probe is still unacknowledged
(`isAlive = false`) — and only then — terminates the connection; two
consecutive unacknowledged probes from a fresh connection evict it, while
an acknowledgment in between keeps it alive.  Eviction runs
`cleanupClient`, which is exactly the `leaveRoomById` path used by an
explicit `leave-room` plus deregistration; that path removes the identity
from the room, notifies every remaining member, and deletes the room once
empty. -/
theorem liveness_eviction_cleanup :
    (∀ b, pingStep b PingEvent.probe = none ↔ b = false) ∧
    runPing true [PingEvent.probe, PingEvent.probe] = none ∧
    runPing true [PingEvent.probe, PingEvent.ack, PingEvent.probe] = some false ∧
    (∀ s ws i rn, lookupA s.clientsByWs ws = some { id := i, room := some rn } →
      rn ≠ "" →
      cleanupClient s ws =
        ({ (leaveRoomById s i (some rn)).1 with
            clientsByWs := delA (leaveRoomById s i (some rn)).1.clientsByWs ws,
            clientsById := delA (leaveRoomById s i (some rn)).1.clientsById i },
          (leaveRoomById s i (some rn)).2)) ∧
    (∀ s i raw rn set0, normalizeRoom (some raw) = some rn → rn ≠ "" →
      lookupA s.rooms rn = some set0 → i ∈ set0 → set0.Nodup →
      i ∉ membersOf (leaveRoomById s i (some raw)).1 rn ∧
      (leaveRoomById s i (some raw)).2 =
        notifyAll s.clientsById s.openConns (eraseMem set0 i) (SMsg.peerLeft i rn) ∧
      (eraseMem set0 i = [] →
        lookupA (leaveRoomById s i (some raw)).1.rooms rn = none)) := by
  refine ⟨?_, by decide, by decide, ?_, ?_⟩
  · intro b
    cases b <;> simp [pingStep]
  · intro s ws i rn hinfo hne
    exact cleanupClient_eq_leave s ws i rn hinfo hne
  · intro s i raw rn set0 hnorm hne hset hmem hnd
    obtain ⟨h1, h2, h3, h4⟩ := leaveRoomById_mem s i raw rn set0 hnorm hne hset hmem
    refine ⟨?_, h1, ?_⟩
    · show i ∉ (lookupA (leaveRoomById s i (some raw)).1.rooms rn).getD []
      rw [h2]
      by_cases he : eraseMem set0 i = []
      · simp [he]
      · simp only [if_neg he, Option.getD_some]
        exact not_mem_eraseMem_of_nodup _ _ hnd
    · intro he
      rw [h2, if_pos he]

/-- C9 witness. -/
theorem liveness_eviction_cleanup_witness :
    cleanupClient stateABinR 1 =
      ({ (leaveRoomById stateABinR "b" (some "R")).1 with
          clientsByWs := delA (leaveRoomById stateABinR "b" (some "R")).1.clientsByWs 1,
          clientsById := delA (leaveRoomById stateABinR "b" (some "R")).1.clientsById "b" },
        (leaveRoomById stateABinR "b" (some "R")).2) ∧
    "b" ∉ membersOf (leaveRoomById stateABinR "b" (some "R")).1 "R" :=
  ⟨liveness_eviction_cleanup.2.2.2.1 stateABinR 1 "b" "R" (by decide) (by decide),
   (liveness_eviction_cleanup.2.2.2.2 stateABinR "b" "R" "R" ["a", "b"] (by decide)
     (by decide) (by decide) (by decide) (by decide)).1⟩

/-! ## Claim C10: leave-room acts on the client-supplied sender field -/

/-- C10: an inbound `leave-room` whose `from` field names `x` removes `x`
from the room — not the identity of the connection that sent the frame —
and notifies the remaining members that `x` left; the sending connection's
own identity stays a member. -/
theorem leave_uses_client_from (s : ServerState) (ws : Nat) (info : ClientInfo)
    (x raw rn : String) (set0 : List String)
    (hinfo : lookupA s.clientsByWs ws = some info)
    (hx : x ≠ "")
    (hnorm : normalizeRoom (some raw) = some rn) (hne : rn ≠ "")
    (hset : lookupA s.rooms rn = some set0) (hxm : x ∈ set0) (hnd : set0.Nodup) :
    handleMessage s ws (leaveMsg (some x) raw) = leaveRoomById s x (some raw) ∧
    x ∉ membersOf (handleMessage s ws (leaveMsg (some x) raw)).1 rn ∧
    (handleMessage s ws (leaveMsg (some x) raw)).2 =
      notifyAll s.clientsById s.openConns (eraseMem set0 x) (SMsg.peerLeft x rn) ∧
    (info.id ≠ x → info.id ∈ set0 →
      info.id ∈ membersOf (handleMessage s ws (leaveMsg (some x) raw)).1 rn) := by
  have hraw : raw ≠ "" := by
    intro h
    rw [h] at hnorm
    simp [normalizeRoom] at hnorm
  have hroute : handleMessage s ws (leaveMsg (some x) raw) = leaveRoomById s x (some raw) := by
    unfold handleMessage
    simp [leaveMsg, hinfo, strOr, optOr, hx, hraw]
  obtain ⟨h1, h2, h3, h4⟩ := leaveRoomById_mem s x raw rn set0 hnorm hne hset hxm
  refine ⟨hroute, ?_, ?_, ?_⟩
  · rw [hroute]
    show x ∉ (lookupA (leaveRoomById s x (some raw)).1.rooms rn).getD []
    rw [h2]
    by_cases he : eraseMem set0 x = []
    · simp [he]
    · simp only [if_neg he, Option.getD_some]
      exact not_mem_eraseMem_of_nodup _ _ hnd
  · rw [hroute, h1]
  · intro hne2 hm2
    rw [hroute]
    have hm3 : info.id ∈ eraseMem set0 x := mem_eraseMem_of_ne _ _ _ hne2 hm2
    have hnonempty : eraseMem set0 x ≠ [] := List.ne_nil_of_mem hm3
    show info.id ∈ (lookupA (leaveRoomById s x (some raw)).1.rooms rn).getD []
    rw [h2]
    simp only [if_neg hnonempty, Option.getD_some]
    exact hm3

/-- C10 witness: on the connection of `"a"`, a `leave-room` with
`from = "b"` removes `"b"` while `"a"` stays. -/
theorem leave_uses_client_from_witness :
    handleMessage stateABinR 0 (leaveMsg (some "b") "R") =
      leaveRoomById stateABinR "b" (some "R") ∧
    "b" ∉ membersOf (handleMessage stateABinR 0 (leaveMsg (some "b") "R")).1 "R" ∧
    (handleMessage stateABinR 0 (leaveMsg (some "b") "R")).2 =
      notifyAll stateABinR.clientsById stateABinR.openConns (eraseMem ["a", "b"] "b")
        (SMsg.peerLeft "b" "R") ∧
    (({ id := "a", room := some "R" } : ClientInfo).id ≠ "b" →
      ({ id := "a", room := some "R" } : ClientInfo).id ∈ ["a", "b"] →
      ({ id := "a", room := some "R" } : ClientInfo).id ∈
        membersOf (handleMessage stateABinR 0 (leaveMsg (some "b") "R")).1 "R") :=
  leave_uses_client_from stateABinR 0 { id := "a", room := some "R" } "b" "R" "R"
    ["a", "b"] (by decide) (by decide) (by decide) (by decide) (by decide) (by decide)
    (by decide)

end VeoChat
